import Mathlib

/-!
Shallow embedding of `periodic_structures.py` (tBG): layered moiré structures,
commensurate and 30°-approximant lattice builders, hopping-table re-keying,
Bloch Hamiltonian assembly and the k-point diagonalization loop, together with
proofs of the specified properties.

Real scalars are modelled by `ℝ`, complex amplitudes by `ℂ`, Python lists by
Lean lists.  The external crystal-structure service (pymatgen) is modelled from
its interface contract where noted.
-/

/-- 2-component real vector (in-plane coordinates). -/
abbrev Vec2 : Type := ℝ × ℝ

/-- 3-component real vector (cartesian coordinates). -/
abbrev Vec3 : Type := ℝ × ℝ × ℝ

/-- A real matrix stored as a list of row vectors (shape is data-dependent,
as with numpy arrays). -/
abbrev RMat : Type := List (List ℝ)

/-- The rotation-center mode of the builders (`rotate_cent` in the source). -/
inductive RotateCent where
  | atom : RotateCent
  | hole : RotateCent
deriving DecidableEq

/-- The sparse per-site hopping table: entry `i` is the dictionary of site `i`,
mapping a key `(m, n, j)` (cell offset and target site) to a complex
amplitude. -/
abbrev HopTable : Type := List (List ((ℤ × ℤ × ℕ) × ℂ))

/-- The mutable state of a layered-structure object (`CommensuStruct`,
`TBG30Approximant` or `Graphene` instance).  Fields that a Python instance
acquires only after some method ran are present from the start with inert
default values. -/
structure MoireState where
  a : ℝ := 0
  h : ℝ := 0
  rotate_cent : RotateCent := RotateCent.atom
  latt_vec : RMat := []
  latt_vec_bott : RMat := []
  latt_vec_top : RMat := []
  coords : List Vec3 := []
  layer_nsites : List ℕ := []
  layer_nsites_sublatt : List (ℕ × ℕ) := []
  layer_latt_vecs : List RMat := []
  nsite : ℕ := 0
  twist_angle : ℝ := 0
  hoppings : HopTable := []

/-- `np.arccos(0.5*(m**2+4*m*n+n**2)/(n**2+m*n+m**2))*180/np.pi`
(the twist angle assigned by `CommensuStruct.make_structure`). -/
noncomputable def twist_angle (m n : ℕ) : ℝ :=
  Real.arccos (0.5 * ((m : ℝ) ^ 2 + 4 * m * n + n ^ 2) / ((n : ℝ) ^ 2 + m * n + m ^ 2))
    * 180 / Real.pi

/-- Dot product of two row vectors (missing entries count as 0, as the
shapes in the source always agree). -/
def dotR (u v : List ℝ) : ℝ := (List.zipWith (· * ·) u v).sum

/-- Apply a matrix (list of rows) to a vector: component `i` is
`dotR (row i) v`. -/
def matApply (M : RMat) (v : List ℝ) : List ℝ := M.map (fun r => dotR r v)

/-- Entry of a matrix, 0 outside the stored shape. -/
def mEntry (M : RMat) (i j : ℕ) : ℝ := (M.getD i []).getD j 0

/-- Determinant of a 3×3 integer matrix given as rows. -/
def det3 (T : List (List ℤ)) : ℤ :=
  let g : ℕ → ℕ → ℤ := fun i j => ((T.getD i []).getD j 0)
  g 0 0 * (g 1 1 * g 2 2 - g 1 2 * g 2 1)
    - g 0 1 * (g 1 0 * g 2 2 - g 1 2 * g 2 0)
    + g 0 2 * (g 1 0 * g 2 1 - g 1 1 * g 2 0)

/-- Fractional-to-cartesian conversion against a 3-row lattice matrix:
`f₁·a₁ + f₂·a₂ + f₃·a₃`, read off componentwise. -/
def frac2cart3 (latt : RMat) (f : Vec3) : Vec3 :=
  (f.1 * mEntry latt 0 0 + f.2.1 * mEntry latt 1 0 + f.2.2 * mEntry latt 2 0,
   f.1 * mEntry latt 0 1 + f.2.1 * mEntry latt 1 1 + f.2.2 * mEntry latt 2 1,
   f.1 * mEntry latt 0 2 + f.2.1 * mEntry latt 1 2 + f.2.2 * mEntry latt 2 2)

/-- Modelled from the spec: the external crystal-structure service
(`pymatgen.core.structure.Structure`), which the core treats purely as
"lattice vectors + cartesian coordinates + site count". -/
structure PmgStruct where
  latt : RMat
  coords : List Vec3

/-- `Structure.num_sites` of the external service. -/
def PmgStruct.num_sites (s : PmgStruct) : ℕ := s.coords.length

/-- `pmg_struct(latt_vec, species, frac_sites)`: build a periodic structure
from lattice vectors and fractional sites (species labels are all carbon and
carry no information). -/
def pmg_struct (latt : RMat) (frac_sites : List Vec3) : PmgStruct :=
  { latt := latt, coords := frac_sites.map (frac2cart3 latt) }

/-- Integer product of a 3×3 integer matrix with a real lattice matrix:
row `i` of the result is `Σⱼ T i j • (row j)`. -/
def intMatMul (T : List (List ℤ)) (M : RMat) : RMat :=
  T.map (fun r =>
    (List.range 3).map (fun c =>
      ((List.range 3).map (fun j => ((r.getD j 0 : ℤ) : ℝ) * mEntry M j c)).sum))

/-- Modelled from the spec: `Structure.make_supercell(T)` of the external
crystal-structure service.  Per the interface contract (§6 of the spec) the
integer supercell transform multiplies the site count by `|det T|` and
replaces the lattice with `T·latt`; the placement of the copied sites inside
the new cell is internal to the external library and no core property depends
on it, so the copies are kept at their original cartesian positions. -/
def make_supercell (T : List (List ℤ)) (s : PmgStruct) : PmgStruct :=
  { latt := intMatMul T s.latt,
    coords := (List.replicate (det3 T).natAbs s.coords).flatten }

/-- `rotate_mat_mn(m,n)` inside `CommensuStruct._pmg_sublatts_prim`. -/
noncomputable def rotate_mat_mn (m n : ℕ) : RMat :=
  let cos : ℝ := ((n : ℝ) ^ 2 + m ^ 2 + 4 * m * n) / (2 * ((n : ℝ) ^ 2 + m ^ 2 + m * n))
  let sin : ℝ := Real.sqrt 3 * ((m : ℝ) ^ 2 - n ^ 2) / (2 * ((n : ℝ) ^ 2 + m ^ 2 + m * n))
  [[cos, -sin, 0], [sin, cos, 0], [0, 0, 1]]

/-- Scale a matrix by a real number (numpy scalar–array product). -/
def smulMat (c : ℝ) (M : RMat) : RMat := M.map (fun r => r.map (fun x => c * x))

/-- `np.matmul(R, B.T).T`: every row of `B` rotated by `R`. -/
def rotRows (R : RMat) (B : RMat) : RMat := B.map (fun r => matApply R r)

/-- The fractional sublattice sites used by both builders: `(sites_bott, sites_top)`
as a function of the rotation-center mode and interlayer spacing `h` (top sites sit
at height `h/100` in fractional units of the 100-long stacking axis). -/
noncomputable def sublatt_sites (rc : RotateCent) (h : ℝ) : (Vec3 × Vec3) × (Vec3 × Vec3) :=
  match rc with
  | RotateCent.atom =>
      (((0, 0, 0), (1/3, 1/3, 0)), ((0, 0, h/100), (1/3, 1/3, h/100)))
  | RotateCent.hole =>
      (((1/3, 1/3, 0), (2/3, 2/3, 0)), ((1/3, 1/3, h/100), (2/3, 2/3, h/100)))

/-- `CommensuStruct.__init__(a, h, rotate_cent)`. -/
def CommensuStruct.init (a h : ℝ) (rc : RotateCent) : MoireState :=
  { a := a, h := h, rotate_cent := rc }

/-- `CommensuStruct._pmg_sublatts_prim(m, n)`: the four primitive one-site
sublattice structures, together with the `latt_vec_bott`/`latt_vec_top`
attributes it stores on `self`. -/
noncomputable def CommensuStruct.sublatts_prim (st : MoireState) (m n : ℕ) :
    (PmgStruct × PmgStruct × PmgStruct × PmgStruct) × RMat × RMat :=
  let latt_vec_bott : RMat :=
    smulMat st.a [[Real.sqrt 3 / 2, -(1/2), 0], [Real.sqrt 3 / 2, 1/2, 0], [0, 0, 100 / st.a]]
  let latt_vec_top : RMat := rotRows (rotate_mat_mn m n) latt_vec_bott
  let s := sublatt_sites st.rotate_cent st.h
  let latt_bott_0 := pmg_struct latt_vec_bott [s.1.1]
  let latt_bott_1 := pmg_struct latt_vec_bott [s.1.2]
  let latt_top_0 := pmg_struct latt_vec_top [s.2.1]
  let latt_top_1 := pmg_struct latt_vec_top [s.2.2]
  ((latt_bott_0, latt_bott_1, latt_top_0, latt_top_1), latt_vec_bott, latt_vec_top)

/-- `CommensuStruct.make_structure(m, n)` (mutates `self`, returning the new
state). -/
noncomputable def CommensuStruct.make_structure (st : MoireState) (m n : ℕ) : MoireState :=
  let p := CommensuStruct.sublatts_prim st m n
  let T_bott : List (List ℤ) := [[(m : ℤ) + n, -(n : ℤ), 0], [(n : ℤ), (m : ℤ), 0], [0, 0, 1]]
  let T_top : List (List ℤ) := [[(m : ℤ) + n, -(m : ℤ), 0], [(m : ℤ), (n : ℤ), 0], [0, 0, 1]]
  let latt_bott_0 := make_supercell T_bott p.1.1
  let latt_bott_1 := make_supercell T_bott p.1.2.1
  let latt_top_0 := make_supercell T_top p.1.2.2.1
  let latt_top_1 := make_supercell T_top p.1.2.2.2
  { st with
    latt_vec_bott := p.2.1,
    latt_vec_top := p.2.2,
    layer_nsites := [latt_bott_0.num_sites + latt_bott_1.num_sites,
                     latt_top_0.num_sites + latt_top_1.num_sites],
    layer_nsites_sublatt := [(latt_bott_0.num_sites, latt_bott_1.num_sites),
                             (latt_top_0.num_sites, latt_top_1.num_sites)],
    latt_vec := latt_bott_0.latt,
    coords := latt_bott_0.coords ++ latt_bott_1.coords ++ latt_top_0.coords ++ latt_top_1.coords,
    layer_latt_vecs := [(p.2.1.take 2).map (fun r => r.take 2),
                        (p.2.2.take 2).map (fun r => r.take 2)],
    nsite := (latt_bott_0.coords ++ latt_bott_1.coords ++ latt_top_0.coords
               ++ latt_top_1.coords).length,
    twist_angle := twist_angle m n }

/-- `int(round(np.sqrt(3)*n_bottom))`, computed exactly over the integers:
with `s = ⌊√(3 n²)⌋`, the rounding adds 1 exactly when `√(3 n²) ≥ s + 1/2`,
i.e. when `(2s+1)² ≤ 12 n²`. -/
def nTop (n : ℕ) : ℕ :=
  let s := Nat.sqrt (3 * n ^ 2)
  if (2 * s + 1) ^ 2 ≤ 4 * (3 * n ^ 2) then s + 1 else s

/-- `TBG30Approximant.__init__(a, h, rotate_cent)`. -/
def TBG30Approximant.init (a h : ℝ) (rc : RotateCent) : MoireState :=
  { a := a, h := h, rotate_cent := rc }

/-- `TBG30Approximant._pmg_sublatts_prim(a_top)`. -/
noncomputable def TBG30Approximant.sublatts_prim (st : MoireState) (a_top : ℝ) :
    (PmgStruct × PmgStruct × PmgStruct × PmgStruct) × RMat × RMat :=
  let latt_vec_bott : RMat :=
    smulMat st.a [[Real.sqrt 3 / 2, -(1/2), 0], [Real.sqrt 3 / 2, 1/2, 0], [0, 0, 100 / st.a]]
  let latt_vec_top : RMat :=
    smulMat a_top [[1, 0, 0], [1/2, Real.sqrt 3 / 2, 0], [0, 0, 100 / a_top]]
  let s := sublatt_sites st.rotate_cent st.h
  ((pmg_struct latt_vec_bott [s.1.1], pmg_struct latt_vec_bott [s.1.2],
    pmg_struct latt_vec_top [s.2.1], pmg_struct latt_vec_top [s.2.2]),
   latt_vec_bott, latt_vec_top)

/-- `TBG30Approximant.make_structure(n_bottom)`.  The two validity checks run
before any attribute of `self` is written, so a raise (modelled as
`Except.error` carrying the error message and the state at raise time) leaves
the state exactly as it was. -/
noncomputable def TBG30Approximant.make_structure (st : MoireState) (n_bottom : ℕ) :
    Except (String × MoireState) MoireState :=
  let n_top := nTop n_bottom
  if Nat.gcd n_bottom n_top ≠ 1 then
    Except.error ("n_bottom and n_top share common dividor!", st)
  else if n_top % 3 = 0 then
    Except.error ("n_top is times of 3!", st)
  else
    let b := st.a / Real.sqrt 3
    let a_top := 3 * b * (n_bottom : ℝ) / (n_top : ℝ)
    let p := TBG30Approximant.sublatts_prim st a_top
    let T_bott : List (List ℤ) :=
      [[(n_bottom : ℤ), (n_bottom : ℤ), 0], [-(n_bottom : ℤ), 2 * n_bottom, 0], [0, 0, 1]]
    let T_top : List (List ℤ) := [[(n_top : ℤ), 0, 0], [0, (n_top : ℤ), 0], [0, 0, 1]]
    let latt_bott_0 := make_supercell T_bott p.1.1
    let latt_bott_1 := make_supercell T_bott p.1.2.1
    let latt_top_0 := make_supercell T_top p.1.2.2.1
    let latt_top_1 := make_supercell T_top p.1.2.2.2
    Except.ok { st with
      latt_vec_bott := p.2.1,
      latt_vec_top := p.2.2,
      layer_nsites := [latt_bott_0.num_sites + latt_bott_1.num_sites,
                       latt_top_0.num_sites + latt_top_1.num_sites],
      layer_nsites_sublatt := [(latt_bott_0.num_sites, latt_bott_1.num_sites),
                               (latt_top_0.num_sites, latt_top_1.num_sites)],
      latt_vec := latt_bott_0.latt,
      coords := latt_bott_0.coords ++ latt_bott_1.coords ++ latt_top_0.coords
                 ++ latt_top_1.coords,
      layer_latt_vecs := [(p.2.1.take 2).map (fun r => r.take 2),
                          (p.2.2.take 2).map (fun r => r.take 2)],
      nsite := (latt_bott_0.coords ++ latt_bott_1.coords ++ latt_top_0.coords
                 ++ latt_top_1.coords).length }

/-- 2-component fractional-to-cartesian conversion (`tBG.utils.frac2cart`
against a 2×2 in-plane lattice). -/
def frac2cart2 (latt : RMat) (f : Vec2) : Vec2 :=
  (f.1 * mEntry latt 0 0 + f.2 * mEntry latt 1 0,
   f.1 * mEntry latt 0 1 + f.2 * mEntry latt 1 1)

/-- `Graphene.__init__(a, h)`: the 2-site monolayer entity. -/
noncomputable def Graphene.init (a h : ℝ) : MoireState :=
  let latt_vec : RMat :=
    smulMat a [[1, 0, 0], [Real.cos (Real.pi / 3), Real.sin (Real.pi / 3), 0], [0, 0, 100 / a]]
  let latt_vec_bott : RMat :=
    smulMat a [[1, 0], [Real.cos (Real.pi / 3), Real.sin (Real.pi / 3)]]
  let c0 := frac2cart2 ((latt_vec.take 2).map (fun r => r.take 2)) (1/3, 1/3)
  let c1 := frac2cart2 ((latt_vec.take 2).map (fun r => r.take 2)) (2/3, 2/3)
  { a := a, h := h,
    latt_vec := latt_vec,
    latt_vec_bott := latt_vec_bott,
    coords := [(c0.1, c0.2, 0), (c1.1, c1.2, 0)],
    layer_nsites := [2],
    layer_nsites_sublatt := [(1, 1)],
    layer_latt_vecs := [latt_vec],
    nsite := 2 }

/-- The four layer-type tags accepted by `append_layers`. -/
inductive LayerTag where
  | A : LayerTag
  | B : LayerTag
  | Atld : LayerTag
  | Btld : LayerTag
deriving DecidableEq

/-- `_coords_xy(layer)` inside `append_layers`: the in-plane coordinates of the
requested sublattice, sliced out of `self.coords` and shifted for the B
sublattices by `(a₁+a₂)/3` of the source layer's in-plane lattice. -/
noncomputable def coords_xy (st : MoireState) (tag : LayerTag) : List Vec2 :=
  let nsite_bott := st.layer_nsites.getD 0 0
  match tag with
  | LayerTag.A =>
      (st.coords.take nsite_bott).map (fun c => (c.1, c.2.1))
  | LayerTag.B =>
      let lv := (st.latt_vec_bott.take 2).map (fun r => r.take 2)
      let off : Vec2 := (1/3 * (mEntry lv 0 0 + mEntry lv 1 0),
                         1/3 * (mEntry lv 0 1 + mEntry lv 1 1))
      (st.coords.take nsite_bott).map (fun c => (c.1 + off.1, c.2.1 + off.2))
  | LayerTag.Atld =>
      let nsite_top := st.layer_nsites.getD 1 0
      ((st.coords.drop nsite_bott).take nsite_top).map (fun c => (c.1, c.2.1))
  | LayerTag.Btld =>
      let nsite_top := st.layer_nsites.getD 1 0
      let lv := (st.latt_vec_top.take 2).map (fun r => r.take 2)
      let off : Vec2 := (1/3 * (mEntry lv 0 0 + mEntry lv 1 0),
                         1/3 * (mEntry lv 0 1 + mEntry lv 1 1))
      ((st.coords.drop nsite_bott).take nsite_top).map
        (fun c => (c.1 + off.1, c.2.1 + off.2))

/-- `nsites_sublatt(layer)` inside `append_layers`. -/
def nsites_sublatt (st : MoireState) (tag : LayerTag) : ℕ × ℕ :=
  match tag with
  | LayerTag.A => st.layer_nsites_sublatt.getD 0 (0, 0)
  | LayerTag.B => st.layer_nsites_sublatt.getD 0 (0, 0)
  | LayerTag.Atld => st.layer_nsites_sublatt.getD 1 (0, 0)
  | LayerTag.Btld => st.layer_nsites_sublatt.getD 1 (0, 0)

/-- `latt_vec(layer)` inside `append_layers`. -/
def latt_vec_of_tag (st : MoireState) (tag : LayerTag) : RMat :=
  match tag with
  | LayerTag.A => st.layer_latt_vecs.getD 0 []
  | LayerTag.B => st.layer_latt_vecs.getD 0 []
  | LayerTag.Atld => st.layer_latt_vecs.getD 1 []
  | LayerTag.Btld => st.layer_latt_vecs.getD 1 []

/-- One iteration of the inner loop of `append_layers`: append the layer with
in-plane coordinates `xy` at height `h·pos`. -/
noncomputable def append_one (st : MoireState) (tag : LayerTag) (xy : List Vec2)
    (pos : ℤ) : MoireState :=
  let z := st.h * (pos : ℝ)
  { st with
    coords := st.coords ++ xy.map (fun p => (p.1, p.2, z)),
    layer_nsites := st.layer_nsites ++ [xy.length],
    layer_nsites_sublatt := st.layer_nsites_sublatt ++ [nsites_sublatt st tag],
    layer_latt_vecs := st.layer_latt_vecs ++ [latt_vec_of_tag st tag] }

/-- `append_layers(layers)`: for every requested tag, its in-plane coordinate
set is computed once and then appended at every requested height multiplier;
`nsite` is recomputed at the end. -/
noncomputable def append_layers (st : MoireState) (layers : List (LayerTag × List ℤ)) :
    MoireState :=
  let st1 := layers.foldl
    (fun s tl =>
      let xy := coords_xy s tl.1
      tl.2.foldl (fun s2 p => append_one s2 tl.1 xy p) s)
    st
  { st1 with nsite := st1.coords.length }

/-- `hoppings_2to3()`: re-key every per-site dictionary from `(m, n, j)` to
`(m, n, 0, j)`. -/
def hoppings_2to3 (st : MoireState) : List (List ((ℤ × ℤ × ℤ × ℕ) × ℂ)) :=
  (List.range st.nsite).map (fun i =>
    (st.hoppings.getD i []).map (fun e => ((e.1.1, e.1.2.1, (0 : ℤ), e.1.2.2), e.2)))

/-- Dictionary lookup in an association list (Python `dict` access). -/
def dictGet {α β : Type} [DecidableEq α] : List (α × β) → α → Option β
  | [], _ => none
  | e :: l, key => if e.1 = key then some e.2 else dictGet l key

/-- Add `v` to the single matrix entry `(r, c)` (numpy `H[r,c] += v`). -/
def addAt {N : ℕ} (H : Matrix (Fin N) (Fin N) ℂ) (r c : Fin N) (v : ℂ) :
    Matrix (Fin N) (Fin N) ℂ :=
  fun p q => if p = r ∧ q = c then H p q + v else H p q

/-- Processing of one hopping entry `((m, n, j), t)` of home site `i` inside
`hamilt_cell_diff`: `R = m·a₁ + n·a₂`, `phase = exp(i k·R)`, then
`Hk[i,j] += t*phase` and `Hk[j,i] += t*conj(phase)` (in that order). -/
noncomputable def hopStep {N : ℕ} (latt : RMat) (k : Vec2) (i : Fin N)
    (H : Matrix (Fin N) (Fin N) ℂ) (e : (ℤ × ℤ × ℕ) × ℂ) :
    Matrix (Fin N) (Fin N) ℂ :=
  let m := e.1.1
  let n := e.1.2.1
  let j := e.1.2.2
  let t := e.2
  if hj : j < N then
    let R : Vec2 := ((m : ℝ) * mEntry latt 0 0 + (n : ℝ) * mEntry latt 1 0,
                     (m : ℝ) * mEntry latt 0 1 + (n : ℝ) * mEntry latt 1 1)
    let phase : ℂ := Complex.exp (Complex.I * ((k.1 * R.1 + k.2 * R.2 : ℝ) : ℂ))
    addAt (addAt H i ⟨j, hj⟩ (t * phase)) ⟨j, hj⟩ i (t * (starRingEnd ℂ) phase)
  else H

/-- `hamilt_cell_diff(k, elec_field)`: dense Bloch matrix at momentum `k`.
The diagonal carries the linear on-site potential `elec_field * z` (for
`elec_field = 0` Python skips the fill, leaving the identical all-zero
diagonal), and every stored hopping contributes to `(i, j)` and `(j, i)` as in
`hopStep`. -/
noncomputable def hamilt_cell_diff (st : MoireState) (k : Vec2) (elec_field : ℝ) :
    Matrix (Fin st.nsite) (Fin st.nsite) ℂ :=
  let H0 : Matrix (Fin st.nsite) (Fin st.nsite) ℂ :=
    fun p q => if p = q then (((st.coords.getD (p : ℕ) (0, 0, 0)).2.2 * elec_field : ℝ) : ℂ)
               else 0
  let latt := (st.latt_vec.take 2).map (fun r => r.take 2)
  (List.range st.nsite).foldl
    (fun H i =>
      if hi : i < st.nsite then
        (st.hoppings.getD i []).foldl (fun H2 e => hopStep latt k ⟨i, hi⟩ H2 e) H
      else H)
    H0

/-- `add_hopping_wannier(...)`: the Wannier hopping computation itself
(`tBG.hopping.calc_hopping_wannier_PBC`, outside this repository's core file)
is passed in as `hopCalc`; the method checks the layer count first and only
then replaces the hopping table. -/
def add_hopping_wannier (hopCalc : MoireState → HopTable) (st : MoireState) :
    Except (String × MoireState) MoireState :=
  if st.layer_nsites.length > 2 then
    Except.error ("Current version can not be used for nlayer>2", st)
  else
    Except.ok { st with hoppings := hopCalc st }

/-- `True` exactly on `Except.error`. -/
def isErr {ε α : Type} : Except ε α → Bool
  | Except.error _ => true
  | Except.ok _ => false

/-- The loop of `diag_kpts`: processes the remaining k-points, carrying the
1-based counter `i`, the list of progress lines printed so far (each line
`'%s/%s k' % (i, ntot)` is recorded as the pair `(i, ntot)`) and the three
output accumulators.  A nonzero `info` from the eigensolver raises
`ValueError('zheev failed')` on the spot. -/
noncomputable def diagGo (st : MoireState)
    (solver : Matrix (Fin st.nsite) (Fin st.nsite) ℂ → ℕ → List ℝ × List (List ℂ) × ℤ)
    (getPk : Vec2 → List (List ℂ) → List ℝ)
    (vec pmk : Bool) (elec_field : ℝ) (ntot : ℕ) :
    List Vec2 → ℕ → List (ℕ × ℕ) →
    List (List ℝ) × List (List (List ℂ)) × List (List ℝ) →
    List (ℕ × ℕ) × Except String (List (List ℝ) × List (List (List ℂ)) × List (List ℝ))
  | [], _, trace, acc => (trace, Except.ok acc)
  | kk :: ks, i, trace, acc =>
    let trace2 := trace ++ [(i, ntot)]
    let Hk := hamilt_cell_diff st kk elec_field
    let vec_calc : ℕ := if vec || pmk then 1 else 0
    let r := solver Hk vec_calc
    if r.2.2 ≠ 0 then
      (trace2, Except.error "zheev failed")
    else
      let pmk_out := if pmk then acc.2.2 ++ [getPk kk r.2.1] else acc.2.2
      let val_out := acc.1 ++ [r.1]
      let vec_out := if vec then acc.2.1 ++ [r.2.1] else acc.2.1
      diagGo st solver getPk vec pmk elec_field ntot ks (i + 1) trace2
        (val_out, vec_out, pmk_out)

/-- `diag_kpts(kpts, vec, pmk, elec_field)`: the external eigensolver
(`scipy.linalg.lapack.zheev`) and spectral projector (`get_pk`) are passed in
as `solver` and `getPk`.  Returns the printed progress trace together with the
outcome. -/
noncomputable def diag_kpts (st : MoireState)
    (solver : Matrix (Fin st.nsite) (Fin st.nsite) ℂ → ℕ → List ℝ × List (List ℂ) × ℤ)
    (getPk : Vec2 → List (List ℂ) → List ℝ)
    (kpts : List Vec2) (vec pmk : Bool) (elec_field : ℝ) :
    List (ℕ × ℕ) × Except String (List (List ℝ) × List (List (List ℂ)) × List (List ℝ)) :=
  diagGo st solver getPk vec pmk elec_field kpts.length kpts 1 [] ([], [], [])

lemma length_flatten_replicate {α : Type} (k : ℕ) (l : List α) :
    (List.replicate k l).flatten.length = k * l.length := by
  induction k with
  | zero => simp
  | succ k ih => simp [List.replicate_succ, ih, Nat.succ_mul, Nat.add_comm]

lemma make_supercell_length (T : List (List ℤ)) (s : PmgStruct) :
    (make_supercell T s).coords.length = (det3 T).natAbs * s.coords.length := by
  simp [make_supercell, length_flatten_replicate]

lemma det3_T_bott (m n : ℕ) :
    det3 [[(m : ℤ) + n, -(n : ℤ), 0], [(n : ℤ), (m : ℤ), 0], [0, 0, 1]]
      = ((m ^ 2 + m * n + n ^ 2 : ℕ) : ℤ) := by
  simp only [det3, List.getD_cons_zero, List.getD_cons_succ]
  push_cast
  ring

lemma det3_T_top (m n : ℕ) :
    det3 [[(m : ℤ) + n, -(m : ℤ), 0], [(m : ℤ), (n : ℤ), 0], [0, 0, 1]]
      = ((m ^ 2 + m * n + n ^ 2 : ℕ) : ℤ) := by
  simp only [det3, List.getD_cons_zero, List.getD_cons_succ]
  push_cast
  ring

lemma commensu_coords_length (st : MoireState) (m n : ℕ) :
    (CommensuStruct.make_structure st m n).coords.length = 4 * (m ^ 2 + m * n + n ^ 2) := by
  simp only [CommensuStruct.make_structure, CommensuStruct.sublatts_prim, pmg_struct,
             List.length_append, make_supercell_length, det3_T_bott, det3_T_top,
             Int.natAbs_ofNat, List.length_map, List.length_cons, List.length_nil]
  ring

lemma commensu_nsite (st : MoireState) (m n : ℕ) :
    (CommensuStruct.make_structure st m n).nsite = 4 * (m ^ 2 + m * n + n ^ 2) := by
  have h := commensu_coords_length st m n
  simp only [CommensuStruct.make_structure] at h ⊢
  exact h

/-- C4: for every valid `(m, n)` the structure built by
`CommensuStruct.make_structure` has exactly `4·(m² + n² + m·n)` sites (four
one-site sublattices, each multiplied by the common determinant
`m² + m·n + n²` of the two supercell transforms), and the count does not
depend on the rotation-center mode (or on any other part of the prior
state). -/
theorem commensu_site_count (st st' : MoireState) (m n : ℕ)
    (hvalid : ¬(m = 0 ∧ n = 0)) :
    (CommensuStruct.make_structure st m n).nsite = 4 * (m ^ 2 + n ^ 2 + m * n) ∧
    (CommensuStruct.make_structure st m n).nsite
      = (CommensuStruct.make_structure st' m n).nsite := by
  refine ⟨?_, ?_⟩
  · rw [commensu_nsite]; ring
  · rw [commensu_nsite, commensu_nsite]

/-- C4 witness: the atom- and hole-centered builders at `(m,n) = (1,2)` both
give `4·(1+4+2) = 28` sites. -/
theorem commensu_site_count_witness :
    (CommensuStruct.make_structure (CommensuStruct.init 2.46 3.35 RotateCent.atom) 1 2).nsite
      = 4 * (1 ^ 2 + 2 ^ 2 + 1 * 2) ∧
    (CommensuStruct.make_structure (CommensuStruct.init 2.46 3.35 RotateCent.atom) 1 2).nsite
      = (CommensuStruct.make_structure (CommensuStruct.init 2.46 3.35 RotateCent.hole) 1 2).nsite :=
  commensu_site_count _ _ 1 2 (by decide)

lemma arccos_one_half : Real.arccos (1 / 2) = Real.pi / 3 := by
  rw [← Real.cos_pi_div_three]
  exact Real.arccos_cos (by positivity) (by linarith [Real.pi_pos])

lemma twist_angle_one_zero : twist_angle 1 0 = 60 := by
  have h : (0.5 * ((1 : ℝ) ^ 2 + 4 * 1 * 0 + 0 ^ 2) / ((0 : ℝ) ^ 2 + 1 * 0 + 1 ^ 2)) = 1 / 2 := by
    norm_num
  unfold twist_angle
  push_cast
  rw [h, arccos_one_half]
  field_simp
  ring

lemma twist_angle_zero_one : twist_angle 0 1 = 60 := by
  have h : (0.5 * ((0 : ℝ) ^ 2 + 4 * 0 * 1 + 1 ^ 2) / ((1 : ℝ) ^ 2 + 0 * 1 + 0 ^ 2)) = 1 / 2 := by
    norm_num
  unfold twist_angle
  push_cast
  rw [h, arccos_one_half]
  field_simp
  ring

/-- C2 counterexample: `(m,n) = (1,0)` and `(0,1)` are coprime, unequal, valid
inputs, yet their twist angles sum to `120°`, not `60°` — the assigned formula
is symmetric under swapping `m` and `n`, so the two angles are equal, not
complementary. -/
theorem twist_angle_not_complementary :
    ¬(twist_angle 1 0 + twist_angle 0 1 = 60) := by
  rw [twist_angle_one_zero, twist_angle_zero_one]
  norm_num

/-- C2 (amended): for coprime `(m,n)` with `m ≠ n` the twist angle assigned by
`CommensuStruct.make_structure` lies in `[0°, 60°]`, and swapping the
arguments yields the *same* angle (the formula is symmetric in `m` and `n`),
not the complementary one. -/
theorem twist_angle_range_and_symm (m n : ℕ) (hco : Nat.Coprime m n) (hne : m ≠ n) :
    0 ≤ twist_angle m n ∧ twist_angle m n ≤ 60 ∧ twist_angle m n = twist_angle n m := by
  have hD : (0 : ℝ) < (n : ℝ) ^ 2 + m * n + m ^ 2 := by
    rcases Nat.eq_zero_or_pos m with hm | hm
    · rcases Nat.eq_zero_or_pos n with hn | hn
      · exfalso
        exact hne (hm.trans hn.symm)
      · have : (0 : ℝ) < (n : ℝ) := by exact_mod_cast hn
        nlinarith
    · have : (0 : ℝ) < (m : ℝ) := by exact_mod_cast hm
      nlinarith
  set x : ℝ := 0.5 * ((m : ℝ) ^ 2 + 4 * m * n + n ^ 2) / ((n : ℝ) ^ 2 + m * n + m ^ 2) with hx
  have hmn0 : (0 : ℝ) ≤ (m : ℝ) * n := by positivity
  have hx_ge : (1 : ℝ) / 2 ≤ x := by
    rw [hx, le_div_iff hD]
    nlinarith
  have hx_le : x ≤ 1 := by
    rw [hx, div_le_one hD]
    nlinarith [sq_nonneg ((m : ℝ) - n)]
  have harc : Real.arccos x ≤ Real.pi / 3 := by
    have h1 : Real.arccos x ≤ Real.arccos (1 / 2) := by
      rw [Real.arccos_eq_pi_div_two_sub_arcsin, Real.arccos_eq_pi_div_two_sub_arcsin]
      have := Real.monotone_arcsin hx_ge
      linarith
    rw [arccos_one_half] at h1
    exact h1
  refine ⟨?_, ?_, ?_⟩
  · unfold twist_angle
    have h1 := Real.arccos_nonneg (0.5 * ((m : ℝ) ^ 2 + 4 * m * n + n ^ 2)
        / ((n : ℝ) ^ 2 + m * n + m ^ 2))
    positivity
  · unfold twist_angle
    rw [← hx]
    have hpi := Real.pi_pos
    calc Real.arccos x * 180 / Real.pi ≤ Real.pi / 3 * 180 / Real.pi := by
          gcongr
        _ = 60 := by
          field_simp
          ring
  · unfold twist_angle
    congr 1
    push_cast
    ring

/-- C2 witness: the theorem instantiated at the valid coprime pair `(1, 0)`. -/
theorem twist_angle_range_and_symm_witness :
    Nat.Coprime 1 0 ∧ (1 : ℕ) ≠ 0 ∧
    (0 ≤ twist_angle 1 0 ∧ twist_angle 1 0 ≤ 60 ∧ twist_angle 1 0 = twist_angle 0 1) :=
  ⟨by decide, by decide, twist_angle_range_and_symm 1 0 (by decide) (by decide)⟩

lemma commensu_twist_angle_field (st : MoireState) (m n : ℕ) :
    (CommensuStruct.make_structure st m n).twist_angle = twist_angle m n := by
  simp [CommensuStruct.make_structure]

lemma graphene_nsite (a h : ℝ) : (Graphene.init a h).nsite = 2 := by
  simp [Graphene.init]

/-- C5 counterexample: for `(m, n) = (1, 0)` the twist angle recorded by
`CommensuStruct.make_structure` is `60°` (`arccos(1/2)`), not `0°` as
claimed. -/
theorem bilayer_one_zero_angle_not_zero :
    (CommensuStruct.make_structure (CommensuStruct.init 2.46 3.35 RotateCent.atom) 1 0).twist_angle
      ≠ 0 := by
  rw [commensu_twist_angle_field, twist_angle_one_zero]
  norm_num

/-- C5 (amended): for `(m, n) = (1, 0)` the builder records a twist angle of
`60°` (the hexagonal-symmetry-equivalent description of an untwisted bilayer,
since the assigned formula gives `arccos(1/2)`), and the structure has `4`
sites — double the `2`-site monolayer `Graphene` entity. -/
theorem bilayer_one_zero (st : MoireState) (a h : ℝ) :
    (CommensuStruct.make_structure st 1 0).twist_angle = 60 ∧
    (CommensuStruct.make_structure st 1 0).nsite = 4 ∧
    (Graphene.init a h).nsite = 2 ∧
    (CommensuStruct.make_structure st 1 0).nsite = 2 * (Graphene.init a h).nsite := by
  have h2 := commensu_nsite st 1 0
  refine ⟨?_, ?_, graphene_nsite a h, ?_⟩
  · rw [commensu_twist_angle_field, twist_angle_one_zero]
  · rw [h2]; norm_num
  · rw [h2, graphene_nsite]; norm_num

lemma nTop_eq_round (n : ℕ) : (nTop n : ℤ) = round (Real.sqrt 3 * n) := by
  have hm3 : Real.sqrt 3 * (n : ℝ) = Real.sqrt ((3 * n ^ 2 : ℕ) : ℝ) := by
    push_cast
    rw [Real.sqrt_mul (by norm_num : (0:ℝ) ≤ 3) ((n : ℝ) ^ 2),
        Real.sqrt_sq (by positivity : (0:ℝ) ≤ (n : ℝ))]
  set m : ℕ := 3 * n ^ 2 with hm_def
  set s : ℕ := Nat.sqrt m with hs_def
  have hs1 : ((s : ℝ)) ≤ Real.sqrt (m : ℝ) := by
    apply (Real.le_sqrt (by positivity) (by positivity)).mpr
    exact_mod_cast Nat.sqrt_le' m
  have hs2 : Real.sqrt (m : ℝ) < (s : ℝ) + 1 := by
    apply (Real.sqrt_lt' (by positivity)).mpr
    exact_mod_cast Nat.lt_succ_sqrt' m
  rw [round_eq, hm3]
  by_cases hcase : (2 * s + 1) ^ 2 ≤ 4 * m
  · have hne : (2 * s + 1) ^ 2 ≠ 4 * m := by
      intro he
      have h4 : 4 * (s ^ 2 + s) + 1 = 4 * m := by rw [← he]; ring
      omega
    have hlt : (2 * s + 1) ^ 2 < 4 * m := lt_of_le_of_ne hcase hne
    have hhalf : (s : ℝ) + 1 / 2 < Real.sqrt (m : ℝ) := by
      apply (Real.lt_sqrt (by positivity)).mpr
      have hc : (((2 * s + 1) ^ 2 : ℕ) : ℝ) < ((4 * m : ℕ) : ℝ) := by exact_mod_cast hlt
      push_cast at hc
      nlinarith
    have hfloor : ⌊Real.sqrt (m : ℝ) + 1 / 2⌋ = (s : ℤ) + 1 := by
      rw [Int.floor_eq_iff]
      constructor
      · push_cast
        linarith
      · push_cast
        linarith
    have hnt : nTop n = s + 1 := by
      rw [nTop]
      simp only [← hm_def, ← hs_def]
      rw [if_pos hcase]
    rw [hnt, hfloor]
    push_cast
    ring
  · have hgt : 4 * m < (2 * s + 1) ^ 2 := Nat.lt_of_not_le hcase
    have hhalf : Real.sqrt (m : ℝ) < (s : ℝ) + 1 / 2 := by
      apply (Real.sqrt_lt' (by positivity)).mpr
      have hc : ((4 * m : ℕ) : ℝ) < (((2 * s + 1) ^ 2 : ℕ) : ℝ) := by exact_mod_cast hgt
      push_cast at hc
      nlinarith
    have hfloor : ⌊Real.sqrt (m : ℝ) + 1 / 2⌋ = (s : ℤ) := by
      rw [Int.floor_eq_iff]
      constructor
      · push_cast
        linarith
      · push_cast
        linarith
    have hnt : nTop n = s := by
      rw [nTop]
      simp only [← hm_def, ← hs_def]
      rw [if_neg hcase]
    rw [hnt, hfloor]

lemma tbg30_isErr_iff (st : MoireState) (n : ℕ) :
    isErr (TBG30Approximant.make_structure st n) = true ↔
      (Nat.gcd n (nTop n) ≠ 1 ∨ nTop n % 3 = 0) := by
  by_cases h1 : Nat.gcd n (nTop n) ≠ 1 <;> by_cases h2 : nTop n % 3 = 0 <;>
    simp [TBG30Approximant.make_structure, h1, h2, isErr]

lemma tbg30_err_6 (st : MoireState) :
    isErr (TBG30Approximant.make_structure st 6) = true := by
  apply (tbg30_isErr_iff st 6).mpr
  left
  norm_num [nTop]

lemma tbg30_ok_3 (st : MoireState) :
    isErr (TBG30Approximant.make_structure st 3) = false := by
  rw [Bool.eq_false_iff]
  intro hB
  have h := (tbg30_isErr_iff st 3).mp hB
  rw [show nTop 3 = 5 by norm_num [nTop]] at h
  norm_num at h

/-- C3: `TBG30Approximant.make_structure` computes
`n_top = round(√3·n_bottom)` (proved against the exact real rounding), raises
exactly when `gcd(n_bottom, n_top) ≠ 1` or `3 ∣ n_top`, and in particular
raises for `n_bottom = 6` (`n_top = 10`, `gcd = 2`) while succeeding for
`n_bottom = 3` (`n_top = 5`). -/
theorem tbg30_validation (st : MoireState) :
    (∀ n : ℕ, (nTop n : ℤ) = round (Real.sqrt 3 * n)) ∧
    (∀ n : ℕ, 0 < n →
      (isErr (TBG30Approximant.make_structure st n) = true ↔
        (Nat.gcd n (nTop n) ≠ 1 ∨ nTop n % 3 = 0))) ∧
    isErr (TBG30Approximant.make_structure st 6) = true ∧
    isErr (TBG30Approximant.make_structure st 3) = false :=
  ⟨nTop_eq_round, fun n _ => tbg30_isErr_iff st n, tbg30_err_6 st, tbg30_ok_3 st⟩

/-- C3 witness: the validity criterion instantiated at `n_bottom = 6`. -/
theorem tbg30_validation_witness :
    (0 : ℕ) < 6 ∧
    (isErr (TBG30Approximant.make_structure
        (TBG30Approximant.init 2.46 3.349 RotateCent.hole) 6) = true ↔
      (Nat.gcd 6 (nTop 6) ≠ 1 ∨ nTop 6 % 3 = 0)) :=
  ⟨by decide,
   (tbg30_validation (TBG30Approximant.init 2.46 3.349 RotateCent.hole)).2.1 6 (by decide)⟩

/-- C10: when `TBG30Approximant.make_structure` raises, both validity checks
have run before any construction step, so the error carries the input state
unchanged — no attribute of the instance has been created or modified. -/
theorem tbg30_error_preserves_state (st : MoireState) (n : ℕ) (e : String × MoireState)
    (herr : TBG30Approximant.make_structure st n = Except.error e) :
    TBG30Approximant.make_structure st n = Except.error (e.1, st) := by
  simp only [TBG30Approximant.make_structure] at herr ⊢
  split_ifs at herr ⊢ with h1 h2
  all_goals simp_all
  all_goals rw [← herr]

/-- C10 witness: the failing call at `n_bottom = 6` returns the initial state
untouched inside the error. -/
theorem tbg30_error_preserves_state_witness :
    TBG30Approximant.make_structure (TBG30Approximant.init 2.46 3.349 RotateCent.hole) 6
      = Except.error ("n_bottom and n_top share common dividor!",
                      TBG30Approximant.init 2.46 3.349 RotateCent.hole) := by
  have h1 : Nat.gcd 6 (nTop 6) ≠ 1 := by norm_num [nTop]
  have herr : TBG30Approximant.make_structure
      (TBG30Approximant.init 2.46 3.349 RotateCent.hole) 6
      = Except.error ("n_bottom and n_top share common dividor!",
                      TBG30Approximant.init 2.46 3.349 RotateCent.hole) := by
    simp [TBG30Approximant.make_structure, h1]
  exact tbg30_error_preserves_state _ _ _ herr

/-- C6 counterexample: the monolayer `Graphene` entity has one layer — not
exactly two — yet `add_hopping_wannier` passes the layer check and succeeds,
because the source only rejects *more* than two layers
(`len(self.layer_nsites) > 2`). -/
theorem wannier_accepts_monolayer :
    (Graphene.init 2.456 3.349).layer_nsites.length ≠ 2 ∧
    add_hopping_wannier (fun _ => []) (Graphene.init 2.456 3.349)
      = Except.ok { Graphene.init 2.456 3.349 with hoppings := [] } := by
  constructor
  · simp [Graphene.init]
  · rw [add_hopping_wannier, if_neg]
    simp [Graphene.init]

/-- C6 (amended): `add_hopping_wannier` fails with the capability error —
before touching the hopping table — exactly when the structure has *more* than
two layers, and otherwise (including the one-layer case) replaces the hopping
table with the Wannier computation's result. -/
theorem wannier_layer_check (hopCalc : MoireState → HopTable) (st : MoireState) :
    (2 < st.layer_nsites.length →
      add_hopping_wannier hopCalc st
        = Except.error ("Current version can not be used for nlayer>2", st)) ∧
    (st.layer_nsites.length ≤ 2 →
      add_hopping_wannier hopCalc st = Except.ok { st with hoppings := hopCalc st }) := by
  constructor
  · intro hgt
    rw [add_hopping_wannier, if_pos hgt]
  · intro hle
    rw [add_hopping_wannier, if_neg (by omega)]

/-- C6 witness: a three-layer structure (monolayer graphene with two appended
copies) is rejected with the capability error and the untouched state. -/
theorem wannier_layer_check_witness :
    2 < (append_layers (Graphene.init 2.456 3.349) [(LayerTag.A, [-1, -2])]).layer_nsites.length ∧
    add_hopping_wannier (fun _ => [])
        (append_layers (Graphene.init 2.456 3.349) [(LayerTag.A, [-1, -2])])
      = Except.error ("Current version can not be used for nlayer>2",
          append_layers (Graphene.init 2.456 3.349) [(LayerTag.A, [-1, -2])]) := by
  have hlen : (append_layers (Graphene.init 2.456 3.349)
      [(LayerTag.A, [-1, -2])]).layer_nsites.length = 3 := by
    simp [append_layers, append_one, coords_xy, Graphene.init]
  refine ⟨by rw [hlen]; omega, ?_⟩
  exact (wannier_layer_check (fun _ => []) _).1 (by rw [hlen]; omega)

lemma dictGet_map_rekey (l : List ((ℤ × ℤ × ℕ) × ℂ)) (m n : ℤ) (j : ℕ) :
    dictGet (l.map (fun e => ((e.1.1, e.1.2.1, (0 : ℤ), e.1.2.2), e.2))) (m, n, 0, j)
      = dictGet l (m, n, j) := by
  induction l with
  | nil => rfl
  | cons x xs ih =>
    rcases x with ⟨⟨a, b, c⟩, t⟩
    by_cases hx : ((a, b, c) : ℤ × ℤ × ℕ) = (m, n, j)
    · simp only [Prod.mk.injEq] at hx
      obtain ⟨rfl, rfl, rfl⟩ := hx
      simp [dictGet]
    · have hx4 : ¬(((a, b, (0 : ℤ), c)) = ((m, n, 0, j) : ℤ × ℤ × ℤ × ℕ)) := by
        simp only [Prod.mk.injEq] at hx ⊢
        tauto
      simp only [List.map_cons, dictGet, if_neg hx, if_neg hx4]
      exact ih

lemma mem_map_rekey (l : List ((ℤ × ℤ × ℕ) × ℂ)) (e : (ℤ × ℤ × ℤ × ℕ) × ℂ) :
    e ∈ l.map (fun e => ((e.1.1, e.1.2.1, (0 : ℤ), e.1.2.2), e.2)) ↔
      (e.1.2.2.1 = 0 ∧ ((e.1.1, e.1.2.1, e.1.2.2.2), e.2) ∈ l) := by
  rcases e with ⟨⟨em, en, ez, ej⟩, et⟩
  simp only [List.mem_map]
  constructor
  · rintro ⟨⟨⟨a, b, c⟩, t⟩, hmem, heq⟩
    simp only [Prod.mk.injEq] at heq
    obtain ⟨⟨h1, h2, h3, h4⟩, h5⟩ := heq
    subst h1; subst h2; subst h3; subst h4; subst h5
    exact ⟨rfl, hmem⟩
  · rintro ⟨h0, hmem⟩
    subst h0
    exact ⟨((em, en, ej), et), hmem, rfl⟩

/-- C8: `hoppings_2to3` returns one dictionary per site (exactly `nsite`
entries in site order); the dictionary for site `i` maps `(m, n, 0, j)` to
exactly what the internal table maps `(m, n, j)` to, every key it contains has
a zero inserted in the third position and comes from an internal key with the
amplitude preserved, and no other keys appear. -/
theorem hoppings_2to3_roundtrip (st : MoireState)
    (hlen : st.hoppings.length = st.nsite) :
    (hoppings_2to3 st).length = st.nsite ∧
    (∀ i, ∀ m n : ℤ, ∀ j : ℕ, i < st.nsite →
      dictGet ((hoppings_2to3 st).getD i []) (m, n, 0, j)
        = dictGet (st.hoppings.getD i []) (m, n, j)) ∧
    (∀ i, ∀ e ∈ (hoppings_2to3 st).getD i [],
      e.1.2.2.1 = 0 ∧ ((e.1.1, e.1.2.1, e.1.2.2.2), e.2) ∈ st.hoppings.getD i []) := by
  have hgetD : ∀ i, i < st.nsite →
      (hoppings_2to3 st).getD i []
        = (st.hoppings.getD i []).map (fun e => ((e.1.1, e.1.2.1, (0 : ℤ), e.1.2.2), e.2)) := by
    intro i hi
    simp [hoppings_2to3, List.getD_eq_getElem?_getD, List.getElem?_map,
          List.getElem?_range, hi]
  refine ⟨by simp [hoppings_2to3], ?_, ?_⟩
  · intro i m n j hi
    rw [hgetD i hi]
    exact dictGet_map_rekey _ m n j
  · intro i e he
    by_cases hi : i < st.nsite
    · rw [hgetD i hi] at he
      exact (mem_map_rekey _ e).mp he
    · rw [List.getD_eq_default] at he
      · exact absurd he (List.not_mem_nil e)
      · simp [hoppings_2to3]
        omega

/-- Concrete one-site structure with a single stored hopping, for the C8
witness. -/
def hop2to3W : MoireState := { nsite := 1, hoppings := [[((2, -1, 0), 3)]] }

/-- C8 witness: the round-trip theorem evaluated on a concrete one-site
table. -/
theorem hoppings_2to3_roundtrip_witness :
    (hoppings_2to3 hop2to3W).length = hop2to3W.nsite ∧
    dictGet ((hoppings_2to3 hop2to3W).getD 0 []) (2, -1, 0, 0)
      = dictGet (hop2to3W.hoppings.getD 0 []) (2, -1, 0) :=
  ⟨(hoppings_2to3_roundtrip hop2to3W rfl).1,
   (hoppings_2to3_roundtrip hop2to3W rfl).2.1 0 2 (-1) 0 (by decide)⟩

/-- The per-layer bookkeeping invariant: layer site counts sum to the number
of coordinates, and each layer's sublattice pair sums to that layer's site
count. -/
def countsOK (st : MoireState) : Prop :=
  st.layer_nsites.sum = st.coords.length ∧
  st.layer_nsites_sublatt.length = st.layer_nsites.length ∧
  ∀ i, (st.layer_nsites_sublatt.getD i (0, 0)).1
        + (st.layer_nsites_sublatt.getD i (0, 0)).2
      = st.layer_nsites.getD i 0

/-- `countsOK` together with `nsite` agreeing with the coordinate list. -/
def countsConsistent (st : MoireState) : Prop :=
  st.nsite = st.coords.length ∧ countsOK st

/-- The layers a tag refers to must exist (`A`/`B` read layer 0, the tilde
tags read layer 1); Python raises `IndexError` outside this domain. -/
def tagOK (st : MoireState) (tag : LayerTag) : Prop :=
  match tag with
  | LayerTag.A => 1 ≤ st.layer_nsites.length
  | LayerTag.B => 1 ≤ st.layer_nsites.length
  | LayerTag.Atld => 2 ≤ st.layer_nsites.length
  | LayerTag.Btld => 2 ≤ st.layer_nsites.length

lemma commensu_countsConsistent (st : MoireState) (m n : ℕ) :
    countsConsistent (CommensuStruct.make_structure st m n) := by
  refine ⟨rfl, ?_, rfl, ?_⟩
  · simp [CommensuStruct.make_structure, PmgStruct.num_sites]
    omega
  · intro i
    match i with
    | 0 => rfl
    | 1 => rfl
    | (k + 2) => rfl

lemma tbg30_countsConsistent (st : MoireState) (n : ℕ) (st2 : MoireState)
    (h : TBG30Approximant.make_structure st n = Except.ok st2) :
    countsConsistent st2 := by
  simp only [TBG30Approximant.make_structure] at h
  split_ifs at h
  simp only [Except.ok.injEq] at h
  subst h
  refine ⟨rfl, ?_, rfl, ?_⟩
  · simp [PmgStruct.num_sites]
    omega
  · intro i
    match i with
    | 0 => rfl
    | 1 => rfl
    | (k + 2) => rfl

lemma graphene_countsConsistent (a h : ℝ) :
    countsConsistent (Graphene.init a h) := by
  refine ⟨rfl, rfl, rfl, ?_⟩
  intro i
  match i with
  | 0 => rfl
  | (k + 1) => rfl

lemma coords_xy_length (st : MoireState) (tag : LayerTag)
    (hOK : countsOK st) (htag : tagOK st tag) :
    (coords_xy st tag).length
      = (nsites_sublatt st tag).1 + (nsites_sublatt st tag).2 := by
  obtain ⟨hsum, hslen, hpair⟩ := hOK
  have h0 : st.layer_nsites.getD 0 0 + st.layer_nsites.getD 1 0 ≤ st.coords.length := by
    rw [← hsum]
    match st.layer_nsites with
    | [] => simp
    | [x] => simp
    | x :: y :: t =>
      simp [List.getD]
      try omega
  cases tag with
  | A =>
    simp only [coords_xy, nsites_sublatt, List.length_map, List.length_take, hpair 0]
    omega
  | B =>
    simp only [coords_xy, nsites_sublatt, List.length_map, List.length_take, hpair 0]
    omega
  | Atld =>
    simp only [coords_xy, nsites_sublatt, List.length_map, List.length_take,
               List.length_drop, hpair 1]
    omega
  | Btld =>
    simp only [coords_xy, nsites_sublatt, List.length_map, List.length_take,
               List.length_drop, hpair 1]
    omega

lemma countsOK_append_one (st : MoireState) (tag : LayerTag) (xy : List Vec2) (pos : ℤ)
    (hOK : countsOK st)
    (hsum : (nsites_sublatt st tag).1 + (nsites_sublatt st tag).2 = xy.length) :
    countsOK (append_one st tag xy pos) := by
  obtain ⟨hsum0, hslen, hpair⟩ := hOK
  refine ⟨?_, ?_, ?_⟩
  · simp [append_one]
    omega
  · simp [append_one, hslen]
  · intro i
    simp only [append_one]
    by_cases hi : i < st.layer_nsites.length
    · rw [List.getD_append _ _ _ _ (by omega : i < st.layer_nsites.length),
          List.getD_append _ _ _ _ (by omega : i < st.layer_nsites_sublatt.length)]
      exact hpair i
    · by_cases hieq : i = st.layer_nsites.length
      · subst hieq
        rw [List.getD_append_right _ _ _ _ (by omega : st.layer_nsites.length ≤ st.layer_nsites.length),
            List.getD_append_right _ _ _ _ (by omega : st.layer_nsites_sublatt.length ≤ st.layer_nsites.length)]
        simp [hslen, hsum]
      · rw [List.getD_append_right _ _ _ _ (by omega : st.layer_nsites.length ≤ i),
            List.getD_append_right _ _ _ _ (by omega : st.layer_nsites_sublatt.length ≤ i)]
        rw [List.getD_eq_default _ _ (by simp; omega), List.getD_eq_default _ _ (by simp; omega)]
        rfl

lemma nsites_sublatt_append_one (st : MoireState) (tag : LayerTag) (xy : List Vec2)
    (pos : ℤ) (tag' : LayerTag) (hslen : st.layer_nsites_sublatt.length = st.layer_nsites.length)
    (htag' : tagOK st tag') :
    nsites_sublatt (append_one st tag xy pos) tag' = nsites_sublatt st tag' := by
  cases tag' with
  | A =>
    simp only [tagOK] at htag'
    simp only [nsites_sublatt, append_one]
    rw [List.getD_append _ _ _ _ (by omega)]
  | B =>
    simp only [tagOK] at htag'
    simp only [nsites_sublatt, append_one]
    rw [List.getD_append _ _ _ _ (by omega)]
  | Atld =>
    simp only [tagOK] at htag'
    simp only [nsites_sublatt, append_one]
    rw [List.getD_append _ _ _ _ (by omega)]
  | Btld =>
    simp only [tagOK] at htag'
    simp only [nsites_sublatt, append_one]
    rw [List.getD_append _ _ _ _ (by omega)]

lemma tagOK_mono (st st2 : MoireState)
    (h : st.layer_nsites.length ≤ st2.layer_nsites.length) (tag : LayerTag)
    (ht : tagOK st tag) : tagOK st2 tag := by
  cases tag <;> simp only [tagOK] at ht ⊢ <;> omega

lemma append_one_layer_len (st : MoireState) (tag : LayerTag) (xy : List Vec2) (pos : ℤ) :
    (append_one st tag xy pos).layer_nsites.length = st.layer_nsites.length + 1 := by
  simp [append_one]

lemma inner_fold_OK (tag : LayerTag) (xy : List Vec2) (ps : List ℤ) :
    ∀ s : MoireState, countsOK s → tagOK s tag →
      (nsites_sublatt s tag).1 + (nsites_sublatt s tag).2 = xy.length →
      countsOK (ps.foldl (fun s2 p => append_one s2 tag xy p) s) ∧
      s.layer_nsites.length
        ≤ (ps.foldl (fun s2 p => append_one s2 tag xy p) s).layer_nsites.length := by
  induction ps with
  | nil =>
    intro s h _ _
    exact ⟨h, le_rfl⟩
  | cons p ps ih =>
    intro s h ht hs
    simp only [List.foldl_cons]
    have h2 := countsOK_append_one s tag xy p h hs
    have hts : nsites_sublatt (append_one s tag xy p) tag = nsites_sublatt s tag :=
      nsites_sublatt_append_one s tag xy p tag h.2.1 ht
    have ht2 : tagOK (append_one s tag xy p) tag :=
      tagOK_mono _ _ (by rw [append_one_layer_len]; omega) tag ht
    have h3 := ih (append_one s tag xy p) h2 ht2 (by rw [hts]; exact hs)
    exact ⟨h3.1, le_trans (by rw [append_one_layer_len]; omega) h3.2⟩

lemma outer_fold_OK (layers : List (LayerTag × List ℤ)) :
    ∀ s : MoireState, countsOK s → (∀ tl ∈ layers, tagOK s tl.1) →
      countsOK (layers.foldl
        (fun s tl => tl.2.foldl (fun s2 p => append_one s2 tl.1 (coords_xy s tl.1) p) s)
        s) ∧
      s.layer_nsites.length
        ≤ (layers.foldl
            (fun s tl => tl.2.foldl (fun s2 p => append_one s2 tl.1 (coords_xy s tl.1) p) s)
            s).layer_nsites.length := by
  induction layers with
  | nil =>
    intro s h _
    exact ⟨h, le_rfl⟩
  | cons tl ls ih =>
    intro s h htags
    simp only [List.foldl_cons]
    have htag : tagOK s tl.1 := htags tl (List.mem_cons_self tl ls)
    have hxylen := coords_xy_length s tl.1 h htag
    have hin := inner_fold_OK tl.1 (coords_xy s tl.1) tl.2 s h htag hxylen.symm
    have hrest := ih _ hin.1 (fun tl' htl' =>
      tagOK_mono _ _ hin.2 tl'.1 (htags tl' (List.mem_cons_of_mem tl htl')))
    exact ⟨hrest.1, le_trans hin.2 hrest.2⟩

lemma append_layers_countsConsistent (st : MoireState) (layers : List (LayerTag × List ℤ))
    (h : countsConsistent st) (htags : ∀ tl ∈ layers, tagOK st tl.1) :
    countsConsistent (append_layers st layers) := by
  have hout := outer_fold_OK layers st h.2 htags
  exact ⟨rfl, hout.1⟩

/-- C9: every structure produced by `CommensuStruct.make_structure`, a
successful `TBG30Approximant.make_structure`, the `Graphene` constructor, or
a subsequent `append_layers` call satisfies: the per-layer site counts sum to
the total number of coordinates (which equals `nsite`), and each layer's
sublattice pair sums to that layer's site count. -/
theorem counts_invariant :
    (∀ st : MoireState, ∀ m n : ℕ, countsConsistent (CommensuStruct.make_structure st m n)) ∧
    (∀ st st2 : MoireState, ∀ n : ℕ,
      TBG30Approximant.make_structure st n = Except.ok st2 → countsConsistent st2) ∧
    (∀ a h : ℝ, countsConsistent (Graphene.init a h)) ∧
    (∀ st : MoireState, ∀ layers : List (LayerTag × List ℤ),
      countsConsistent st → (∀ tl ∈ layers, tagOK st tl.1) →
      countsConsistent (append_layers st layers)) :=
  ⟨commensu_countsConsistent,
   fun st st2 n h => tbg30_countsConsistent st n st2 h,
   graphene_countsConsistent,
   append_layers_countsConsistent⟩

/-- C9 witness: the invariant evaluated on monolayer graphene with one
appended `A` layer. -/
theorem counts_invariant_witness :
    countsConsistent (append_layers (Graphene.init 2.456 3.349) [(LayerTag.A, [-1])]) :=
  counts_invariant.2.2.2 _ _ (counts_invariant.2.2.1 2.456 3.349)
    (by
      intro tl htl
      simp only [List.mem_singleton] at htl
      subst htl
      simp [tagOK, Graphene.init])

lemma foldl_preserve {α β : Type} (P : α → Prop) (f : α → β → α) (l : List β) (a : α)
    (h0 : P a) (hstep : ∀ x, P x → ∀ b ∈ l, P (f x b)) : P (l.foldl f a) := by
  induction l generalizing a with
  | nil => exact h0
  | cons b bs ih =>
    exact ih (f a b) (hstep a h0 b (List.mem_cons_self b bs))
      (fun x hx c hc => hstep x hx c (List.mem_cons_of_mem b hc))

lemma addAt_apply {N : ℕ} (H : Matrix (Fin N) (Fin N) ℂ) (r c : Fin N) (v : ℂ)
    (p q : Fin N) :
    addAt H r c v p q = H p q + if p = r ∧ q = c then v else 0 := by
  unfold addAt
  split_ifs <;> simp

lemma addAt_pair_herm {N : ℕ} (H : Matrix (Fin N) (Fin N) ℂ) (i j : Fin N)
    (t phase : ℂ) (ht : t.im = 0) (hH : H.conjTranspose = H) :
    (addAt (addAt H i j (t * phase)) j i (t * (starRingEnd ℂ) phase)).conjTranspose
      = addAt (addAt H i j (t * phase)) j i (t * (starRingEnd ℂ) phase) := by
  have hpt : (starRingEnd ℂ) t = t := Complex.conj_eq_iff_im.mpr ht
  funext p q
  have hHpq : (starRingEnd ℂ) (H q p) = H p q := by
    have := congrFun (congrFun hH p) q
    simpa [Matrix.conjTranspose_apply] using this
  simp only [Matrix.conjTranspose_apply, addAt_apply, Complex.star_def, map_add,
             apply_ite (starRingEnd ℂ), map_mul, hpt, starRingEnd_self_apply, map_zero, hHpq]
  simp only [and_comm]
  ring

lemma hopStep_herm {N : ℕ} (latt : RMat) (k : Vec2) (i : Fin N)
    (H : Matrix (Fin N) (Fin N) ℂ) (e : (ℤ × ℤ × ℕ) × ℂ) (ht : e.2.im = 0)
    (hH : H.conjTranspose = H) :
    (hopStep latt k i H e).conjTranspose = hopStep latt k i H e := by
  unfold hopStep
  dsimp only
  split
  · exact addAt_pair_herm H i _ e.2 _ ht hH
  · exact hH


/-- C1 (amended): the Bloch assembler adds `t·phase` at `(i, j)` and
`t·conj(phase)` (the source reads `t*np.conj(phase)`, not
`conj(t)*conj(phase)`) at `(j, i)`; consequently the assembled matrix equals
its own conjugate transpose whenever every stored amplitude is real — which
holds for the hopping models shipped with the code — but not for general
complex amplitudes. -/
theorem hamilt_hermitian_real_amps (st : MoireState) (k : Vec2) (ef : ℝ)
    (hbound : ∀ l ∈ st.hoppings, ∀ e ∈ l, e.1.2.2 < st.nsite)
    (hre : ∀ l ∈ st.hoppings, ∀ e ∈ l, e.2.im = 0) :
    (hamilt_cell_diff st k ef).conjTranspose = hamilt_cell_diff st k ef := by
  unfold hamilt_cell_diff
  dsimp only
  apply foldl_preserve (P := fun H : Matrix (Fin st.nsite) (Fin st.nsite) ℂ =>
    H.conjTranspose = H)
  · funext p q
    simp only [Matrix.conjTranspose_apply, Complex.star_def]
    by_cases hpq : p = q
    · subst hpq
      simp [Complex.conj_ofReal]
    · rw [if_neg (fun h => hpq h.symm), if_neg hpq, map_zero]
  · intro H hH i hi
    split
    · apply foldl_preserve (P := fun H : Matrix (Fin st.nsite) (Fin st.nsite) ℂ =>
        H.conjTranspose = H) _ _ _ hH
      intro H2 hH2 e he
      apply hopStep_herm
      · by_cases hlen : i < st.hoppings.length
        · rw [List.getD_eq_getElem _ _ hlen] at he
          exact hre _ (List.getElem_mem hlen) e he
        · rw [List.getD_eq_default _ _ (by omega)] at he
          exact absurd he (List.not_mem_nil e)
      · exact hH2
    · exact hH

/-- C1 counterexample state: two sites, one stored hopping with the purely
imaginary amplitude `i`. -/
def imagHopSt : MoireState :=
  { nsite := 2,
    coords := [(0, 0, 0), (0, 0, 0)],
    latt_vec := [[1, 0, 0], [0, 1, 0], [0, 0, 1]],
    hoppings := [[((0, 0, 1), Complex.I)], []] }

lemma imagHop_entry_01 :
    hamilt_cell_diff imagHopSt (0, 0) 0 ⟨0, by norm_num [imagHopSt]⟩
      ⟨1, by norm_num [imagHopSt]⟩ = Complex.I := by
  norm_num [hamilt_cell_diff, imagHopSt, List.range_succ, hopStep, addAt_apply, mEntry,
            Fin.mk.injEq, Complex.exp_zero]

lemma imagHop_entry_10 :
    hamilt_cell_diff imagHopSt (0, 0) 0 ⟨1, by norm_num [imagHopSt]⟩
      ⟨0, by norm_num [imagHopSt]⟩ = Complex.I := by
  norm_num [hamilt_cell_diff, imagHopSt, List.range_succ, hopStep, addAt_apply, mEntry,
            Fin.mk.injEq, Complex.exp_zero]

/-- C1 counterexample: the assembler adds `t*conj(phase)` — not
`conj(t)*conj(phase)` — at `(j, i)`, so with the complex amplitude `t = i`
the assembled Bloch matrix is not equal to its own conjugate transpose. -/
theorem hamilt_not_hermitian_for_complex_t :
    (hamilt_cell_diff imagHopSt (0, 0) 0).conjTranspose
      ≠ hamilt_cell_diff imagHopSt (0, 0) 0 := by
  intro hcon
  have h := congrFun (congrFun hcon ⟨0, by norm_num [imagHopSt]⟩) ⟨1, by norm_num [imagHopSt]⟩
  rw [Matrix.conjTranspose_apply, imagHop_entry_01, imagHop_entry_10] at h
  simp only [Complex.star_def, Complex.ext_iff, Complex.conj_re, Complex.conj_im,
             Complex.I_re, Complex.I_im] at h
  norm_num at h

/-- Two-site state with one stored real hopping, for the C1 witness. -/
def realHopSt : MoireState :=
  { nsite := 2,
    coords := [(0, 0, 0), (0, 0, 0)],
    latt_vec := [[1, 0, 0], [0, 1, 0], [0, 0, 1]],
    hoppings := [[((0, 0, 1), 1)], []] }

/-- C1 witness: the amended Hermiticity theorem evaluated on a concrete
two-site structure whose only amplitude is real. -/
theorem hamilt_hermitian_real_amps_witness :
    (hamilt_cell_diff realHopSt (0, 0) 0).conjTranspose
      = hamilt_cell_diff realHopSt (0, 0) 0 :=
  hamilt_hermitian_real_amps realHopSt (0, 0) 0
    (by
      intro l hl e he
      simp only [realHopSt, List.mem_cons, List.not_mem_nil, or_false] at hl
      rcases hl with rfl | rfl
      · simp only [List.mem_singleton] at he
        subst he
        norm_num [realHopSt]
      · exact absurd he (List.not_mem_nil e))
    (by
      intro l hl e he
      simp only [realHopSt, List.mem_cons, List.not_mem_nil, or_false] at hl
      rcases hl with rfl | rfl
      · simp only [List.mem_singleton] at he
        subst he
        norm_num
      · exact absurd he (List.not_mem_nil e))

lemma range_map_shift (i ntot n : ℕ) :
    (i, ntot) :: (List.range n).map (fun t => (i + 1 + t, ntot))
      = (List.range (n + 1)).map (fun t => (i + t, ntot)) := by
  rw [List.range_succ_eq_map, List.map_cons, List.map_map]
  congr 1
  refine List.map_congr_left fun a _ => ?_
  simp only [Function.comp_apply, Prod.mk.injEq, and_true]
  omega

lemma diagGo_first_failure (st : MoireState)
    (solver : Matrix (Fin st.nsite) (Fin st.nsite) ℂ → ℕ → List ℝ × List (List ℂ) × ℤ)
    (getPk : Vec2 → List (List ℂ) → List ℝ)
    (vec pmk : Bool) (ef : ℝ) (ntot : ℕ)
    (ks1 : List Vec2) (kbad : Vec2) (ks2 : List Vec2)
    (hok : ∀ kk ∈ ks1,
      (solver (hamilt_cell_diff st kk ef) (if vec || pmk then 1 else 0)).2.2 = 0)
    (hbad : (solver (hamilt_cell_diff st kbad ef) (if vec || pmk then 1 else 0)).2.2 ≠ 0) :
    ∀ (i : ℕ) (trace : List (ℕ × ℕ))
      (acc : List (List ℝ) × List (List (List ℂ)) × List (List ℝ)),
      diagGo st solver getPk vec pmk ef ntot (ks1 ++ kbad :: ks2) i trace acc
        = (trace ++ (List.range (ks1.length + 1)).map (fun t => (i + t, ntot)),
           Except.error "zheev failed") := by
  induction ks1 with
  | nil =>
    intro i trace acc
    simp only [List.nil_append, diagGo]
    rw [if_pos hbad]
    simp [List.range_succ]
  | cons kk ks ih =>
    intro i trace acc
    have hkk := hok kk (List.mem_cons_self kk ks)
    simp only [List.cons_append, diagGo]
    rw [if_neg (not_not_intro hkk)]
    simp only [List.append_eq]
    rw [ih (fun k hk => hok k (List.mem_cons_of_mem kk hk)) (i + 1)]
    simp only [List.length_cons, List.append_assoc, List.singleton_append]
    rw [range_map_shift]

/-- C7: if the eigensolver first reports a nonzero status at the k-point
following the successful prefix `ks1`, then `diag_kpts` raises
`ValueError('zheev failed')` on the spot: the returned outcome is the error,
the progress trace contains exactly one `'i/ntot k'` line per k-point
attempted (so each k-point was solved once, with no retry), and its last line
`(ks1.length + 1, ntot)` names the 1-based position of the offending k-point
in the input list. -/
theorem diag_kpts_error_reporting (st : MoireState)
    (solver : Matrix (Fin st.nsite) (Fin st.nsite) ℂ → ℕ → List ℝ × List (List ℂ) × ℤ)
    (getPk : Vec2 → List (List ℂ) → List ℝ)
    (vec pmk : Bool) (ef : ℝ) (ks1 : List Vec2) (kbad : Vec2) (ks2 : List Vec2)
    (hok : ∀ kk ∈ ks1,
      (solver (hamilt_cell_diff st kk ef) (if vec || pmk then 1 else 0)).2.2 = 0)
    (hbad : (solver (hamilt_cell_diff st kbad ef) (if vec || pmk then 1 else 0)).2.2 ≠ 0) :
    (diag_kpts st solver getPk (ks1 ++ kbad :: ks2) vec pmk ef).2
        = Except.error "zheev failed" ∧
    (diag_kpts st solver getPk (ks1 ++ kbad :: ks2) vec pmk ef).1.length
        = ks1.length + 1 ∧
    (diag_kpts st solver getPk (ks1 ++ kbad :: ks2) vec pmk ef).1.getLast?
        = some (ks1.length + 1, (ks1 ++ kbad :: ks2).length) := by
  unfold diag_kpts
  rw [diagGo_first_failure st solver getPk vec pmk ef (ks1 ++ kbad :: ks2).length
      ks1 kbad ks2 hok hbad 1 [] ([], [], [])]
  refine ⟨rfl, by simp, ?_⟩
  rw [List.nil_append, List.range_succ, List.map_append]
  simp [List.getLast?_concat, Nat.add_comm]

/-- C7 witness: a solver that always reports failure, on a single k-point. -/
theorem diag_kpts_error_reporting_witness :
    (diag_kpts (Graphene.init 2.456 3.349) (fun _ _ => ([], [], 1)) (fun _ _ => [])
        [((0 : ℝ), (0 : ℝ))] false false 0).2 = Except.error "zheev failed" ∧
    (diag_kpts (Graphene.init 2.456 3.349) (fun _ _ => ([], [], 1)) (fun _ _ => [])
        [((0 : ℝ), (0 : ℝ))] false false 0).1.length = 1 ∧
    (diag_kpts (Graphene.init 2.456 3.349) (fun _ _ => ([], [], 1)) (fun _ _ => [])
        [((0 : ℝ), (0 : ℝ))] false false 0).1.getLast? = some (1, 1) := by
  have h := diag_kpts_error_reporting (Graphene.init 2.456 3.349)
      (fun _ _ => ([], [], 1)) (fun _ _ => []) false false 0 [] ((0 : ℝ), (0 : ℝ)) []
      (by intro kk hkk; exact absurd hkk (List.not_mem_nil kk))
      (by norm_num)
  simpa using h
